import Mathlib

/-!
Verification of the sparse-ho hypergradient core against its source.

The development shallowly embeds the two core source files:
* `sparse_ho/utils.py` — numerical primitives (`ST`), the active-set
  realignment utilities (`init_dbeta0_new`, `init_dbeta0_new_p`), the
  support-similarity ratio (`iou`) and the `Monitor` record;
* `sparse_ho/forward.py` — the forward-differentiation coordinate-descent
  loop (`get_beta_jac_iterdiff`) and the `Forward.get_beta_jac_v` entry
  point.

Machine floats are idealized as exact rationals; the model adapter
(`Lasso`, `wLasso`, `mcp`, ... in the python package) is kept abstract as a
structure of the functions the solver calls on it, since its code is not
part of the excerpted core.
-/

set_option linter.unusedVariables false

namespace SparseHo

/-- Number of `true` entries of a boolean list (`mask.sum()` on a numpy
boolean mask). -/
def countTrue : List Bool → Nat
  | [] => 0
  | b :: bs => (if b then 1 else 0) + countTrue bs

/-! ### utils.py : numerical primitives -/

/-- `np.sign` on an exact rational. -/
def npSign (x : ℚ) : ℚ :=
  if 0 < x then 1 else if x < 0 then -1 else 0

/-- `np.abs` on an exact rational. -/
def npAbs (x : ℚ) : ℚ :=
  if x < 0 then -x else x

/-- `np.maximum` on exact rationals. -/
def npMax (x y : ℚ) : ℚ :=
  if x ≤ y then y else x

/-- `ST(x, alpha) = np.sign(x) * np.maximum(np.abs(x) - alpha, 0.)`
(utils.py, soft-threshold). -/
def ST (x alpha : ℚ) : ℚ :=
  npSign x * npMax (npAbs x - alpha) 0

/-! ### utils.py : active-set realignment -/

/-- The single-pass remap loop shared by `init_dbeta0_new` and
`init_dbeta0_new_p` (utils.py): iterate the feature indices `j`; a feature
active in both masks copies the entry of `v` at the running old-active
counter `count_old` (here: the head of the suffix of `v` still to be
consumed); a feature active only in the new mask keeps the `np.zeros`
default `dflt`; `count_old` advances on old-active features, and one output
cell is emitted per new-active feature.  `headD`/`tail` totalize the
out-of-range read `dbeta0[count_old]`, which the alignment precondition
`len(v) = mask_old.sum()` excludes. -/
def remapActive {α : Type} (dflt : α) : List α → List Bool → List Bool → List α
  | v, m :: ms, mo :: mos =>
    let rest := remapActive dflt (if mo then v.tail else v) ms mos
    if m then (if mo then v.headD dflt else dflt) :: rest else rest
  | _, _, _ => []

/-- `init_dbeta0_new(dbeta0, mask, mask_old)` (utils.py lines 138-157):
remap an old active-set Jacobian vector to a new mask. -/
def init_dbeta0_new (dbeta0 : List ℚ) (mask mask_old : List Bool) : List ℚ :=
  remapActive 0 dbeta0 mask mask_old

/-- `init_dbeta0_new_p(jac0, mask, mask_old)` (utils.py lines 119-135):
rows of `jac0` are consumed at the old-active counter; a row active in both
masks is itself remapped by `init_dbeta0_new` with the full masks; a row
active only in the new mask stays the `np.zeros((size_mat, size_mat))`
default, a zero row of length `mask.sum()`. -/
def init_dbeta0_new_p (jac0 : List (List ℚ)) (mask mask_old : List Bool) :
    List (List ℚ) :=
  (remapActive (α := Option (List ℚ)) none (jac0.map some) mask mask_old).map
    (fun r => match r with
      | some row => init_dbeta0_new row mask mask_old
      | none => List.replicate (countTrue mask) 0)

/-! ### utils.py : support similarity -/

/-- `iou(supp1, supp2)` (utils.py lines 160-162): intersection size divided
by union size.  The source has no guard: on two empty supports numpy
evaluates the integer quotient `0 / 0` to NaN (with a RuntimeWarning); the
undefined quotient is modeled as `none`. -/
def iou (supp1 supp2 : List Bool) : Option ℚ :=
  let inter : Nat := countTrue (List.zipWith (fun a b => a && b) supp1 supp2)
  let uni : Nat := countTrue (List.zipWith (fun a b => a || b) supp1 supp2)
  if uni = 0 then none else some ((inter : ℚ) / (uni : ℚ))

/-! ### utils.py : Monitor -/

/-- The `Monitor` record (utils.py lines 172-195): per-outer-iteration
metric sequences plus the start time `t0`.  A scalar-or-vector
hyperparameter is `ℚ ⊕ List ℚ`; optional fields are `Option`, with `none`
the Python `None` sentinel. -/
structure Monitor where
  t0 : ℚ
  objs : List ℚ
  objs_test : List (Option ℚ)
  times : List ℚ
  log_alphas : List (Option (ℚ ⊕ List ℚ))
  grads : List (Option (List ℚ))
  rmse : List (Option ℚ)

/-- `Monitor.__init__`: empty sequences, `t0 = time.time()` (the ambient
clock value is a parameter of the embedding). -/
def Monitor.init (t_start : ℚ) : Monitor :=
  ⟨t_start, [], [], [], [], [], []⟩

/-- `Monitor.__call__(obj, obj_test, log_alpha, grad, rmse)` (utils.py
lines 185-195): append one entry to every sequence; `times` records
`time.time() - t0` with `t_now` the ambient clock; the `log_alpha.copy()`
try/except is value semantics here. -/
def Monitor.call (m : Monitor) (t_now : ℚ) (obj : ℚ) (obj_test : Option ℚ)
    (log_alpha : Option (ℚ ⊕ List ℚ)) (grad : Option (List ℚ))
    (rmse : Option ℚ) : Monitor where
  t0 := m.t0
  objs := m.objs ++ [obj]
  objs_test := m.objs_test ++ [obj_test]
  times := m.times ++ [t_now - m.t0]
  log_alphas := m.log_alphas ++ [log_alpha]
  grads := m.grads ++ [grad]
  rmse := m.rmse ++ [rmse]

/-! ### forward.py : the forward-differentiation solver -/

/-- The model adapter surface that `get_beta_jac_iterdiff` calls (one
variant per loss/penalty pair in the python package; the adapter code is
outside the excerpted core, so the functions stay abstract).  The solver
state `σ` packs the adapter-owned mutable data `(beta, dbeta, r, dr)`;
every adapter function receiving `alphas` takes the per-feature
hyperparameter vector. -/
structure ModelAdapter (σ : Type) where
  /-- `model._update_beta_jac_bcd` / `_update_beta_jac_bcd_sparse`: one
  coordinate-descent-with-Jacobian sweep, given `alphas` and
  `compute_jac`. -/
  update_beta_jac_bcd : List ℚ → Bool → σ → σ
  /-- `model._get_pobj(r, beta, alphas, y)`: primal objective at the
  current state. -/
  get_pobj : List ℚ → σ → ℚ
  /-- `model._get_pobj0(r, np.zeros(n_features), alphas, y)`: objective at
  the zero coefficient vector (the initial residual is part of the
  warm-start state fixed at entry). -/
  get_pobj0 : List ℚ → ℚ
  /-- The coefficient vector `beta` held in the state. -/
  betaOf : σ → List ℚ
  /-- `model._get_jac(dbeta, mask)`. -/
  get_jac : σ → List Bool → List ℚ
  /-- `model.get_jac_v(mask, dense, jac, v)`. -/
  get_jac_v : List Bool → List ℚ → List ℚ → List ℚ → List ℚ
  /-- `model.get_full_jac_v(mask, jac_v, n_features)`. -/
  get_full_jac_v : List Bool → List ℚ → Nat → List ℚ

/-- forward.py lines 77-86: `alpha = np.exp(log_alpha)`, then a vector
`log_alpha` gives `alphas = alpha.copy()` while a scalar is broadcast to
`alphas = np.ones(n_features) * alpha`.  `expf` abstracts `np.exp` (not a
rational function; no claim depends on its values). -/
def computeAlphas (expf : ℚ → ℚ) (n_features : Nat) : ℚ ⊕ List ℚ → List ℚ
  | Sum.inl a => List.replicate n_features (expf a)
  | Sum.inr v => v.map expf

/-- forward.py line 125: the break test
`(i > 1) and (pobj[-2] - pobj[-1] <= np.abs(pobj0 * tol))`, evaluated on
the objective list just after the current sweep's append. -/
def stopCond (i : Nat) (pobj : List ℚ) (pobj0 tol : ℚ) : Bool :=
  decide (1 < i) &&
    match pobj.reverse with
    | pLast :: pPrev :: _ => decide (pPrev - pLast ≤ npAbs (pobj0 * tol))
    | _ => false

/-- forward.py lines 109-134, the sweep loop `for i in range(max_iter)`:
each pass applies one adapter sweep, appends the primal objective, and
breaks on `stopCond`.  `fuel` is the remaining iteration budget
(`max_iter - i`), `i` the 0-based sweep index, `pobj` the objective list
so far.  Returns the final state, the objective list, the number of sweeps
executed, and whether the loop broke early (`true`) or exhausted the
budget (`false`, the for-else "did not converge" diagnostic). -/
def loopGo {σ : Type} (step : σ → σ) (getPobj : σ → ℚ) (pobj0 tol : ℚ) :
    Nat → Nat → σ → List ℚ → σ × List ℚ × Nat × Bool
  | 0, i, s, pobj => (s, pobj, i, false)
  | fuel + 1, i, s, pobj =>
    let s2 := step s
    let pobj2 := pobj ++ [getPobj s2]
    if stopCond i pobj2 pobj0 tol then (s2, pobj2, i + 1, true)
    else loopGo step getPobj pobj0 tol fuel (i + 1) s2 pobj2

/-- The objective value appended at sweep index `j` when the loop starts
from `s0`: `getPobj` of the `(j+1)`-fold iterate of the sweep. -/
def pseq {σ : Type} (step : σ → σ) (getPobj : σ → ℚ) (s0 : σ) (j : Nat) : ℚ :=
  getPobj (step^[j + 1] s0)

/-- The sweep loop of `get_beta_jac_iterdiff` (forward.py lines 70-134)
from the hyperparameter broadcast onward: compute `alphas` and `pobj0`,
then run the sweep loop from the warm-started state `s0`.  Specialized to
models without the ready-made-estimator bypass (forward.py lines 79-80). -/
def iterdiff_run {σ : Type} (M : ModelAdapter σ) (expf : ℚ → ℚ)
    (n_features : Nat) (log_alpha : ℚ ⊕ List ℚ) (s0 : σ) (max_iter : Nat)
    (tol : ℚ) (compute_jac : Bool) : σ × List ℚ × Nat × Bool :=
  let alphas := computeAlphas expf n_features log_alpha
  loopGo (M.update_beta_jac_bcd alphas compute_jac) (M.get_pobj alphas)
    (M.get_pobj0 alphas) tol max_iter 0 s0 []

/-- The coefficient vector `beta` after the sweep loop of
`get_beta_jac_iterdiff` ends. -/
def iterdiff_final_beta {σ : Type} (M : ModelAdapter σ) (expf : ℚ → ℚ)
    (n_features : Nat) (log_alpha : ℚ ⊕ List ℚ) (s0 : σ) (max_iter : Nat)
    (tol : ℚ) (compute_jac : Bool) : List ℚ :=
  M.betaOf
    (iterdiff_run M expf n_features log_alpha s0 max_iter tol compute_jac).1

/-- The sequence of primal objectives the sweep loop of
`get_beta_jac_iterdiff` would append, sweep by sweep. -/
def iterdiff_pobj_seq {σ : Type} (M : ModelAdapter σ) (expf : ℚ → ℚ)
    (n_features : Nat) (log_alpha : ℚ ⊕ List ℚ) (s0 : σ)
    (compute_jac : Bool) : Nat → ℚ :=
  pseq (M.update_beta_jac_bcd (computeAlphas expf n_features log_alpha)
      compute_jac)
    (M.get_pobj (computeAlphas expf n_features log_alpha)) s0

/-- The initial objective `pobj0` of `get_beta_jac_iterdiff`
(forward.py line 97). -/
def iterdiff_pobj0 {σ : Type} (M : ModelAdapter σ) (expf : ℚ → ℚ)
    (n_features : Nat) (log_alpha : ℚ ⊕ List ℚ) : ℚ :=
  M.get_pobj0 (computeAlphas expf n_features log_alpha)

/-- `get_beta_jac_iterdiff` (forward.py lines 35-149), specialized to
`return_all = False` and `save_iterates = False` and to models without the
ready-made-estimator bypass: run the sweep loop, then
`mask = beta != 0`, `dense = beta[mask]`, `jac = model._get_jac(dbeta,
mask)`, returning `jac` only when `compute_jac`. -/
def get_beta_jac_iterdiff {σ : Type} (M : ModelAdapter σ) (expf : ℚ → ℚ)
    (n_features : Nat) (log_alpha : ℚ ⊕ List ℚ) (s0 : σ) (max_iter : Nat)
    (tol : ℚ) (compute_jac : Bool) :
    List Bool × List ℚ × Option (List ℚ) :=
  let run := iterdiff_run M expf n_features log_alpha s0 max_iter tol
    compute_jac
  let beta := M.betaOf run.1
  let mask := beta.map (fun x => decide (x ≠ 0))
  let dense := beta.filter (fun x => decide (x ≠ 0))
  let jac := M.get_jac run.1 mask
  (mask, dense, if compute_jac then some jac else none)

/-- `Forward.get_beta_jac_v` (forward.py lines 16-32): call
`get_beta_jac_iterdiff` — with the hardcoded inner budget
`max_iter=100` of line 23 ("TODO replace 100 by better value"); the
`max_iter` argument of the method itself is not forwarded — then contract
the Jacobian with `v`. -/
def forward_get_beta_jac_v {σ : Type} (M : ModelAdapter σ) (expf : ℚ → ℚ)
    (n_features : Nat) (log_alpha : ℚ ⊕ List ℚ) (s0 : σ) (v : List ℚ)
    (max_iter : Nat) (tol : ℚ) (compute_jac full_jac_v : Bool) :
    List Bool × List ℚ × Option (List ℚ) × Option (List ℚ) :=
  let mdj := get_beta_jac_iterdiff M expf n_features log_alpha s0 100 tol
    compute_jac
  let jac_v : Option (List ℚ) :=
    match mdj.2.2 with
    | some jac =>
      let jv := M.get_jac_v mdj.1 mdj.2.1 jac v
      some (if full_jac_v then M.get_full_jac_v mdj.1 jv n_features else jv)
    | none => none
  (mdj.1, mdj.2.1, jac_v, mdj.2.2)

/-- The number of coordinate-descent sweeps the inner solver of
`forward_get_beta_jac_v` executes: the sweep count of the loop run with
the hardcoded budget `100` of forward.py line 23, whatever the `max_iter`
argument of the method. -/
def forward_sweep_count {σ : Type} (M : ModelAdapter σ) (expf : ℚ → ℚ)
    (n_features : Nat) (log_alpha : ℚ ⊕ List ℚ) (s0 : σ) (tol : ℚ)
    (compute_jac : Bool) (max_iter : Nat) : Nat :=
  (iterdiff_run M expf n_features log_alpha s0 100 tol compute_jac).2.2.1

/-! ### Concrete model instances used to evaluate the embedding -/

/-- A concrete model adapter on the state `Nat` counting the sweeps; the
objective after the `n`-th state is `pobjValues n`. -/
def natModel (pobjValues : Nat → ℚ) (pobj0v : ℚ) (betaF : Nat → List ℚ) :
    ModelAdapter Nat where
  update_beta_jac_bcd := fun _ _ n => n + 1
  get_pobj := fun _ n => pobjValues n
  get_pobj0 := fun _ => pobj0v
  betaOf := betaF
  get_jac := fun _ _ => []
  get_jac_v := fun _ _ _ _ => []
  get_full_jac_v := fun _ _ _ => []

/-- Objective values 10, 9, 8, 8, ... : the third sweep's decrease is
exactly `1 = |pobj0 * tol|` for `pobj0 = 10`, `tol = 1/10`. -/
def pobjBoundary (n : Nat) : ℚ :=
  if n = 1 then 10 else if n = 2 then 9 else 8

/-- Objective values decreasing by 2 every sweep: the relative-decrease
test never fires for `pobj0 = 10`, `tol = 1/10`. -/
def pobjSlow (n : Nat) : ℚ := 10 - 2 * n

/-! ### Basic lemmas on the numerical primitives -/

theorem npAbs_eq_abs (x : ℚ) : npAbs x = |x| := by
  unfold npAbs
  rcases lt_or_le x 0 with h | h
  · rw [if_pos h, abs_of_neg h]
  · rw [if_neg (not_lt.mpr h), abs_of_nonneg h]

theorem npMax_eq_max (x y : ℚ) : npMax x y = max x y := by
  unfold npMax
  rcases le_or_lt x y with h | h
  · rw [if_pos h, max_eq_right h]
  · rw [if_neg (not_le.mpr h), max_eq_left h.le]

theorem npSign_mul_abs (x : ℚ) : npSign x * |x| = x := by
  unfold npSign
  rcases lt_trichotomy x 0 with h | h | h
  · rw [if_neg (not_lt.mpr h.le), if_pos h, abs_of_neg h]; ring
  · simp [h]
  · rw [if_pos h, abs_of_pos h, one_mul]

/-! ### Basic lemmas on lists and masks -/

theorem countTrue_cons (b : Bool) (l : List Bool) :
    countTrue (b :: l) = (if b then 1 else 0) + countTrue l := rfl

theorem countTrue_cons_true (l : List Bool) :
    countTrue (true :: l) = 1 + countTrue l := rfl

theorem countTrue_cons_false (l : List Bool) :
    countTrue (false :: l) = countTrue l := by
  simp [countTrue]

theorem headD_eq_getD_zero {α : Type} (l : List α) (d : α) :
    l.headD d = l.getD 0 d := by
  cases l <;> rfl

theorem tail_getD {α : Type} (l : List α) (k : Nat) (d : α) :
    l.tail.getD k d = l.getD (k + 1) d := by
  cases l <;> rfl

theorem filter_length_eq_countTrue {α : Type} (p : α → Bool) (l : List α) :
    (l.filter p).length = countTrue (l.map p) := by
  induction l with
  | nil => rfl
  | cons x xs ih =>
    rw [List.map_cons, countTrue_cons, List.filter_cons]
    cases hp : p x <;> simp [hp, ih, Nat.add_comm]

theorem countTrue_take_lt (l : List Bool) (j : Nat)
    (h : l.getD j false = true) : countTrue (l.take j) < countTrue l := by
  induction l generalizing j with
  | nil => simp [List.getD] at h
  | cons b bs ih =>
    cases j with
    | zero =>
      rw [List.getD_cons_zero] at h
      subst h
      simp [countTrue]
    | succ k =>
      rw [List.getD_cons_succ] at h
      rw [List.take_succ_cons, countTrue_cons, countTrue_cons]
      exact Nat.add_lt_add_left (ih k h) _

/-! ### Lemmas on the active-set remap loop -/

theorem remapActive_length {α : Type} (dflt : α) (mask : List Bool) :
    ∀ (mask_old : List Bool) (v : List α),
      mask.length = mask_old.length →
      (remapActive dflt v mask mask_old).length = countTrue mask := by
  induction mask with
  | nil => intro mo v _; cases mo <;> rfl
  | cons m ms ih =>
    intro mo v hlen
    cases mo with
    | nil => simp at hlen
    | cons mo mos =>
      have h2 : ms.length = mos.length := by simpa using hlen
      cases m <;> cases mo <;>
        simp [remapActive, countTrue, ih mos _ h2] <;> omega

theorem remapActive_getD {α : Type} (dflt : α) (mask : List Bool) :
    ∀ (mask_old : List Bool) (v : List α) (j : Nat),
      mask.length = mask_old.length → j < mask.length →
      mask.getD j false = true →
      (remapActive dflt v mask mask_old)[countTrue (mask.take j)]? =
        some (if mask_old.getD j false then
                v.getD (countTrue (mask_old.take j)) dflt
              else dflt) := by
  induction mask with
  | nil => intro mo v j _ hj _; simp at hj
  | cons m ms ih =>
    intro mo v j hlen hj hm
    cases mo with
    | nil => simp at hlen
    | cons mo mos =>
      have h2 : ms.length = mos.length := by simpa using hlen
      cases j with
      | zero =>
        rw [List.getD_cons_zero] at hm
        subst hm
        cases mo <;> cases v <;>
          simp [remapActive, countTrue, List.getD_cons_zero]
      | succ k =>
        rw [List.getD_cons_succ] at hm
        have hk : k < ms.length := by simpa using hj
        rw [List.take_succ_cons, countTrue_cons, List.getD_cons_succ,
          List.take_succ_cons, countTrue_cons]
        cases m with
        | false =>
          simp only [if_neg Bool.false_ne_true, Nat.zero_add]
          cases mo with
          | false =>
            have ihk := ih mos v k h2 hk hm
            simpa [remapActive] using ihk
          | true =>
            have ihk := ih mos v.tail k h2 hk hm
            have hcons :
                remapActive dflt v (false :: ms) (true :: mos) =
                  remapActive dflt v.tail ms mos := by
              simp [remapActive]
            rw [if_pos rfl, hcons, ihk]
            cases hmos : mos.getD k false <;>
              simp [tail_getD, Nat.add_comm]
        | true =>
          rw [if_pos rfl]
          cases mo with
          | false =>
            have ihk := ih mos v k h2 hk hm
            have hcons :
                remapActive dflt v (true :: ms) (false :: mos) =
                  dflt :: remapActive dflt v ms mos := by
              simp [remapActive]
            rw [hcons, Nat.add_comm 1 (countTrue (ms.take k)),
              List.getElem?_cons_succ, ihk]
            simp
          | true =>
            have ihk := ih mos v.tail k h2 hk hm
            have hcons :
                remapActive dflt v (true :: ms) (true :: mos) =
                  v.headD dflt :: remapActive dflt v.tail ms mos := by
              simp [remapActive]
            rw [hcons, Nat.add_comm 1 (countTrue (ms.take k)),
              List.getElem?_cons_succ, ihk]
            cases hmos : mos.getD k false <;>
              simp [tail_getD, Nat.add_comm]

theorem remapActive_self {α : Type} (dflt : α) (mask : List Bool) :
    ∀ (v : List α), v.length = countTrue mask →
      remapActive dflt v mask mask = v := by
  induction mask with
  | nil =>
    intro v hv
    cases v with
    | nil => rfl
    | cons x xs => simp [countTrue] at hv
  | cons m ms ih =>
    intro v hv
    cases m with
    | false =>
      simp only [countTrue, if_neg Bool.false_ne_true, Nat.zero_add] at hv
      simp [remapActive, ih v hv]
    | true =>
      cases v with
      | nil =>
        rw [List.length_nil, countTrue_cons_true] at hv
        exact absurd hv (by omega)
      | cons x xs =>
        rw [countTrue_cons_true, List.length_cons] at hv
        have hxs : xs.length = countTrue ms := by omega
        simp [remapActive, ih xs hxs]

/-! ### Characterization of the sweep loop -/

/-- The break test of forward.py line 125 on the objective list after the
sweep of index `i`: true exactly when `i > 1` and the last decrease is at
most `np.abs(pobj0 * tol)`. -/
theorem stopCond_range {σ : Type} (step : σ → σ) (getPobj : σ → ℚ) (s0 : σ)
    (pobj0 tol : ℚ) (i : Nat) :
    stopCond i ((List.range (i + 1)).map (pseq step getPobj s0)) pobj0 tol
        = true ↔
      1 < i ∧ pseq step getPobj s0 (i - 1) - pseq step getPobj s0 i ≤
        npAbs (pobj0 * tol) := by
  match i with
  | 0 => simp [stopCond]
  | 1 => simp [stopCond, List.range_succ]
  | k + 2 =>
    have h : (List.range (k + 3)).map (pseq step getPobj s0) =
        ((List.range (k + 1)).map (pseq step getPobj s0) ++
            [pseq step getPobj s0 (k + 1)]) ++
          [pseq step getPobj s0 (k + 2)] := by
      simp [List.range_succ]
    rw [stopCond, h]
    simp [List.reverse_append]

/-- If no sweep index in the remaining budget satisfies the break test,
the loop exhausts the budget and reports non-convergence. -/
theorem loopGo_no_stop {σ : Type} (step : σ → σ) (getPobj : σ → ℚ)
    (pobj0 tol : ℚ) (s0 : σ) :
    ∀ (fuel i : Nat),
      (∀ n, i ≤ n → n < i + fuel →
        ¬(1 < n ∧ pseq step getPobj s0 (n - 1) - pseq step getPobj s0 n ≤
            npAbs (pobj0 * tol))) →
      loopGo step getPobj pobj0 tol fuel i (step^[i] s0)
          ((List.range i).map (pseq step getPobj s0)) =
        (step^[i + fuel] s0,
          (List.range (i + fuel)).map (pseq step getPobj s0), i + fuel,
          false) := by
  intro fuel
  induction fuel with
  | zero => intro i h; simp [loopGo]
  | succ f ihf =>
    intro i h
    have hstep : step (step^[i] s0) = step^[i + 1] s0 :=
      (Function.iterate_succ_apply' step i s0).symm
    have hlist : (List.range i).map (pseq step getPobj s0) ++
        [getPobj (step^[i + 1] s0)] =
        (List.range (i + 1)).map (pseq step getPobj s0) := by
      simp [List.range_succ, pseq]
    have hsc : stopCond i
        ((List.range (i + 1)).map (pseq step getPobj s0)) pobj0 tol
          = false := by
      rw [Bool.eq_false_iff]
      intro hc
      exact h i le_rfl (by omega)
        ((stopCond_range step getPobj s0 pobj0 tol i).mp hc)
    have harith : i + 1 + f = i + (f + 1) := by omega
    have hnext : ∀ n, i + 1 ≤ n → n < i + 1 + f →
        ¬(1 < n ∧
          pseq step getPobj s0 (n - 1) - pseq step getPobj s0 n ≤
            npAbs (pobj0 * tol)) := by
      intro n h1 h2
      exact h n (by omega) (by omega)
    have ih2 := ihf (i + 1) hnext
    rw [harith] at ih2
    simp only [loopGo, hstep, hlist, hsc, Bool.false_eq_true, if_false]
    exact ih2

/-- If `n` is the first sweep index in the remaining budget satisfying the
break test, the loop breaks right after sweep `n`, having executed `n + 1`
sweeps. -/
theorem loopGo_stop {σ : Type} (step : σ → σ) (getPobj : σ → ℚ)
    (pobj0 tol : ℚ) (s0 : σ) :
    ∀ (fuel i n : Nat), i ≤ n → n < i + fuel →
      (1 < n ∧ pseq step getPobj s0 (n - 1) - pseq step getPobj s0 n ≤
        npAbs (pobj0 * tol)) →
      (∀ k, i ≤ k → k < n →
        ¬(1 < k ∧ pseq step getPobj s0 (k - 1) - pseq step getPobj s0 k ≤
            npAbs (pobj0 * tol))) →
      loopGo step getPobj pobj0 tol fuel i (step^[i] s0)
          ((List.range i).map (pseq step getPobj s0)) =
        (step^[n + 1] s0,
          (List.range (n + 1)).map (pseq step getPobj s0), n + 1, true) := by
  intro fuel
  induction fuel with
  | zero => intro i n h1 h2; omega
  | succ f ihf =>
    intro i n hin hnf hstop hmin
    have hstep : step (step^[i] s0) = step^[i + 1] s0 :=
      (Function.iterate_succ_apply' step i s0).symm
    have hlist : (List.range i).map (pseq step getPobj s0) ++
        [getPobj (step^[i + 1] s0)] =
        (List.range (i + 1)).map (pseq step getPobj s0) := by
      simp [List.range_succ, pseq]
    rcases Nat.eq_or_lt_of_le hin with heq | hlt
    · subst heq
      have hsc : stopCond i
          ((List.range (i + 1)).map (pseq step getPobj s0)) pobj0 tol
            = true :=
        (stopCond_range step getPobj s0 pobj0 tol i).mpr hstop
      simp only [loopGo, hstep, hlist, hsc, if_true]
    · have hsc : stopCond i
          ((List.range (i + 1)).map (pseq step getPobj s0)) pobj0 tol
            = false := by
        rw [Bool.eq_false_iff]
        intro hc
        exact hmin i le_rfl hlt
          ((stopCond_range step getPobj s0 pobj0 tol i).mp hc)
      have hnext : ∀ k, i + 1 ≤ k → k < n →
          ¬(1 < k ∧
            pseq step getPobj s0 (k - 1) - pseq step getPobj s0 k ≤
              npAbs (pobj0 * tol)) := by
        intro k h1 h2
        exact hmin k (by omega) h2
      have ih2 := ihf (i + 1) n (by omega) (by omega) hstop hnext
      simp only [loopGo, hstep, hlist, hsc, Bool.false_eq_true, if_false]
      exact ih2

theorem add_one_iterate (k m : Nat) :
    (fun n : Nat => n + 1)^[k] m = m + k := by
  induction k generalizing m with
  | zero => simp
  | succ j ih =>
    rw [Function.iterate_succ_apply', ih]
    omega

theorem natModel_pseq (pv : Nat → ℚ) (p0v : ℚ) (bf : Nat → List ℚ)
    (A : List ℚ) (cj : Bool) (s0 j : Nat) :
    pseq ((natModel pv p0v bf).update_beta_jac_bcd A cj)
        ((natModel pv p0v bf).get_pobj A) s0 j = pv (s0 + (j + 1)) := by
  show pv ((fun n : Nat => n + 1)^[j + 1] s0) = pv (s0 + (j + 1))
  rw [add_one_iterate]

/-- C1 (amended): for every call to `get_beta_jac_iterdiff` with a
nonnegative tolerance, the sweep loop stops early, after exactly `n + 1`
sweeps, exactly when `n + 1` is within the budget, at least 2 sweeps
precede sweep `n` (`1 < n`, forward.py line 125's `i > 1` guard: no early
stop can occur on the first two sweeps), the decrease between the previous
and current primal objective is at most (non-strictly) `tol` times the
absolute value of the initial objective, and no earlier sweep index past
the first two already satisfied that test; the rule compares objective
decrease, not a gradient norm. -/
theorem C1_stop_rule {σ : Type} (M : ModelAdapter σ) (expf : ℚ → ℚ)
    (n_features : Nat) (log_alpha : ℚ ⊕ List ℚ) (s0 : σ) (max_iter : Nat)
    (tol : ℚ) (compute_jac : Bool) (htol : 0 ≤ tol) (n : Nat) :
    (iterdiff_run M expf n_features log_alpha s0 max_iter tol
        compute_jac).2.2 = (n + 1, true) ↔
      n + 1 ≤ max_iter ∧ 1 < n ∧
        iterdiff_pobj_seq M expf n_features log_alpha s0 compute_jac (n - 1)
            - iterdiff_pobj_seq M expf n_features log_alpha s0 compute_jac n
          ≤ tol * |iterdiff_pobj0 M expf n_features log_alpha| ∧
        ∀ k, 1 < k → k < n →
          tol * |iterdiff_pobj0 M expf n_features log_alpha| <
            iterdiff_pobj_seq M expf n_features log_alpha s0 compute_jac
                (k - 1) -
              iterdiff_pobj_seq M expf n_features log_alpha s0 compute_jac
                k := by
  have hthr : tol * |iterdiff_pobj0 M expf n_features log_alpha| =
      npAbs (M.get_pobj0 (computeAlphas expf n_features log_alpha) * tol) := by
    rw [npAbs_eq_abs, abs_mul, abs_of_nonneg htol, iterdiff_pobj0, mul_comm]
  have hq : iterdiff_pobj_seq M expf n_features log_alpha s0 compute_jac =
      pseq (M.update_beta_jac_bcd (computeAlphas expf n_features log_alpha)
          compute_jac)
        (M.get_pobj (computeAlphas expf n_features log_alpha)) s0 := rfl
  have hrun : iterdiff_run M expf n_features log_alpha s0 max_iter tol
      compute_jac =
      loopGo (M.update_beta_jac_bcd (computeAlphas expf n_features log_alpha)
          compute_jac)
        (M.get_pobj (computeAlphas expf n_features log_alpha))
        (M.get_pobj0 (computeAlphas expf n_features log_alpha)) tol max_iter
        0 s0 [] := rfl
  rw [hthr, hq, hrun]
  generalize hstepv : M.update_beta_jac_bcd
    (computeAlphas expf n_features log_alpha) compute_jac = step
  generalize hgpv : M.get_pobj (computeAlphas expf n_features log_alpha) = gp
  generalize hp0v : M.get_pobj0 (computeAlphas expf n_features log_alpha) = p0
  constructor
  · intro hres
    by_cases hex : ∃ m, m < max_iter ∧ 1 < m ∧
        pseq step gp s0 (m - 1) - pseq step gp s0 m ≤ npAbs (p0 * tol)
    · have hspec := Nat.find_spec hex
      have hminf : ∀ k, k < Nat.find hex → ¬(k < max_iter ∧ 1 < k ∧
          pseq step gp s0 (k - 1) - pseq step gp s0 k ≤ npAbs (p0 * tol)) :=
        fun k hk => Nat.find_min hex hk
      have hloop := loopGo_stop step gp p0 tol s0 max_iter 0 (Nat.find hex)
        (Nat.zero_le _) (by omega)
        ⟨hspec.2.1, hspec.2.2⟩
        (fun k _ hk hc => hminf k hk ⟨by omega, hc⟩)
      simp only [Function.iterate_zero_apply, List.range_zero,
        List.map_nil] at hloop
      rw [hloop] at hres
      have hn : Nat.find hex = n := by
        have := congrArg Prod.fst hres
        simpa using this
      refine ⟨by omega, ?_, ?_, ?_⟩
      · rw [← hn]; exact hspec.2.1
      · rw [← hn]; exact hspec.2.2
      · intro k h1k hkn
        by_contra hle
        push_neg at hle
        exact hminf k (by omega) ⟨by omega, h1k, hle⟩
    · push_neg at hex
      have hnone : ∀ m, 0 ≤ m → m < 0 + max_iter → ¬(1 < m ∧
          pseq step gp s0 (m - 1) - pseq step gp s0 m ≤
            npAbs (p0 * tol)) := by
        intro m _ hm hc
        exact absurd hc.2 (not_le.mpr (hex m (by omega) hc.1))
      have hloop := loopGo_no_stop step gp p0 tol s0 max_iter 0 hnone
      simp only [Function.iterate_zero_apply, List.range_zero,
        List.map_nil, Nat.zero_add] at hloop
      rw [hloop] at hres
      have := congrArg Prod.snd hres
      simp at this
  · rintro ⟨hbudget, h1n, hdec, hminlt⟩
    have hmin0 : ∀ k, 0 ≤ k → k < n → ¬(1 < k ∧
        pseq step gp s0 (k - 1) - pseq step gp s0 k ≤
          npAbs (p0 * tol)) := by
      intro k _ hkn hc
      exact absurd hc.2 (not_le.mpr (hminlt k hc.1 hkn))
    have hloop := loopGo_stop step gp p0 tol s0 max_iter 0 n (Nat.zero_le _)
      (by omega) ⟨h1n, hdec⟩ (fun k hk0 hkn hc => hmin0 k hk0 hkn hc)
    simp only [Function.iterate_zero_apply, List.range_zero,
      List.map_nil] at hloop
    rw [hloop]

/-- C1, counterexample to the claim as stated: on the model whose
objectives are 10, 9, 8 with `pobj0 = 10` and `tol = 1/10`, the loop
stops early after the third sweep although the last decrease `9 - 8 = 1`
is not strictly smaller than `tol * |pobj0| = 1` — the source breaks on
`<=`, not on `<`. -/
theorem C1_counterexample :
    (iterdiff_run (natModel pobjBoundary 10 (fun _ => [])) id 1 (Sum.inl 0)
        0 10 (1/10) true).2.1 = [10, 9, 8] ∧
    (iterdiff_run (natModel pobjBoundary 10 (fun _ => [])) id 1 (Sum.inl 0)
        0 10 (1/10) true).2.2 = (3, true) ∧
    ¬((9 : ℚ) - 8 < (1/10) * |(10 : ℚ)|) := by
  have hq : ∀ j, pseq
      ((natModel pobjBoundary 10 (fun _ => [])).update_beta_jac_bcd
        (computeAlphas id 1 (Sum.inl 0)) true)
      ((natModel pobjBoundary 10 (fun _ => [])).get_pobj
        (computeAlphas id 1 (Sum.inl 0))) 0 j = pobjBoundary (j + 1) := by
    intro j
    rw [natModel_pseq]
    norm_num
  have hstop : 1 < 2 ∧ pseq
      ((natModel pobjBoundary 10 (fun _ => [])).update_beta_jac_bcd
        (computeAlphas id 1 (Sum.inl 0)) true)
      ((natModel pobjBoundary 10 (fun _ => [])).get_pobj
        (computeAlphas id 1 (Sum.inl 0))) 0 (2 - 1) -
      pseq ((natModel pobjBoundary 10 (fun _ => [])).update_beta_jac_bcd
        (computeAlphas id 1 (Sum.inl 0)) true)
      ((natModel pobjBoundary 10 (fun _ => [])).get_pobj
        (computeAlphas id 1 (Sum.inl 0))) 0 2 ≤
      npAbs ((natModel pobjBoundary 10 (fun _ => [])).get_pobj0
        (computeAlphas id 1 (Sum.inl 0)) * (1/10)) := by
    refine ⟨by norm_num, ?_⟩
    rw [show (2 : Nat) - 1 = 1 from rfl, hq 1, hq 2]
    show pobjBoundary 2 - pobjBoundary 3 ≤ npAbs (10 * (1/10))
    norm_num [pobjBoundary, npAbs]
  have hmin : ∀ k, 0 ≤ k → k < 2 → ¬(1 < k ∧ pseq
      ((natModel pobjBoundary 10 (fun _ => [])).update_beta_jac_bcd
        (computeAlphas id 1 (Sum.inl 0)) true)
      ((natModel pobjBoundary 10 (fun _ => [])).get_pobj
        (computeAlphas id 1 (Sum.inl 0))) 0 (k - 1) -
      pseq ((natModel pobjBoundary 10 (fun _ => [])).update_beta_jac_bcd
        (computeAlphas id 1 (Sum.inl 0)) true)
      ((natModel pobjBoundary 10 (fun _ => [])).get_pobj
        (computeAlphas id 1 (Sum.inl 0))) 0 k ≤
      npAbs ((natModel pobjBoundary 10 (fun _ => [])).get_pobj0
        (computeAlphas id 1 (Sum.inl 0)) * (1/10))) := by
    intro k _ hk hc
    omega
  have hloop := loopGo_stop
    ((natModel pobjBoundary 10 (fun _ => [])).update_beta_jac_bcd
      (computeAlphas id 1 (Sum.inl 0)) true)
    ((natModel pobjBoundary 10 (fun _ => [])).get_pobj
      (computeAlphas id 1 (Sum.inl 0)))
    ((natModel pobjBoundary 10 (fun _ => [])).get_pobj0
      (computeAlphas id 1 (Sum.inl 0)))
    (1/10) 0 10 0 2 (Nat.zero_le _) (by omega) hstop hmin
  simp only [Function.iterate_zero_apply, List.range_zero,
    List.map_nil] at hloop
  have hrun : iterdiff_run (natModel pobjBoundary 10 (fun _ => [])) id 1
      (Sum.inl 0) 0 10 (1/10) true =
      (((natModel pobjBoundary 10 (fun _ => [])).update_beta_jac_bcd
          (computeAlphas id 1 (Sum.inl 0)) true)^[2 + 1] 0,
        (List.range (2 + 1)).map (pseq
          ((natModel pobjBoundary 10 (fun _ => [])).update_beta_jac_bcd
            (computeAlphas id 1 (Sum.inl 0)) true)
          ((natModel pobjBoundary 10 (fun _ => [])).get_pobj
            (computeAlphas id 1 (Sum.inl 0))) 0), 2 + 1, true) := hloop
  refine ⟨?_, ?_, by norm_num⟩
  · rw [hrun]
    show (List.range 3).map _ = _
    rw [show List.range 3 = [0, 1, 2] by rfl]
    simp only [List.map_cons, List.map_nil, hq 0, hq 1, hq 2]
    norm_num [pobjBoundary]
  · rw [hrun]

/-- Witness for `C1_stop_rule`: the amended stop rule instantiated on a
concrete model, budget and tolerance. -/
theorem C1_stop_rule_witness :
    (0 : ℚ) ≤ 1/10 ∧
      ((iterdiff_run (natModel pobjBoundary 10 (fun _ => [])) id 1
          (Sum.inl 0) 0 10 (1/10) true).2.2 = (2 + 1, true) ↔
        2 + 1 ≤ 10 ∧ 1 < 2 ∧
          iterdiff_pobj_seq (natModel pobjBoundary 10 (fun _ => [])) id 1
              (Sum.inl 0) 0 true (2 - 1) -
            iterdiff_pobj_seq (natModel pobjBoundary 10 (fun _ => [])) id 1
              (Sum.inl 0) 0 true 2 ≤
            1/10 * |iterdiff_pobj0 (natModel pobjBoundary 10 (fun _ => []))
              id 1 (Sum.inl 0)| ∧
          ∀ k, 1 < k → k < 2 →
            1/10 * |iterdiff_pobj0 (natModel pobjBoundary 10 (fun _ => []))
              id 1 (Sum.inl 0)| <
              iterdiff_pobj_seq (natModel pobjBoundary 10 (fun _ => [])) id
                  1 (Sum.inl 0) 0 true (k - 1) -
                iterdiff_pobj_seq (natModel pobjBoundary 10 (fun _ => []))
                  id 1 (Sum.inl 0) 0 true k) :=
  ⟨by norm_num,
    C1_stop_rule (natModel pobjBoundary 10 (fun _ => [])) id 1 (Sum.inl 0)
      0 10 (1/10) true (by norm_num) 2⟩

/-- C2, evaluation at the failing input: with `max_iter = 5` passed to
`Forward.get_beta_jac_v` and a model whose objective decreases by 2 every
sweep (so the relative-decrease test never fires at `pobj0 = 10`,
`tol = 1/10`), the inner solver executes 100 sweeps — the hardcoded budget
of forward.py line 23 — and not at most the requested 5. -/
theorem C2_max_iter_ignored :
    forward_sweep_count (natModel pobjSlow 10 (fun _ => [])) id 1
        (Sum.inl 0) 0 (1/10) true 5 = 100 ∧
    ¬(forward_sweep_count (natModel pobjSlow 10 (fun _ => [])) id 1
        (Sum.inl 0) 0 (1/10) true 5 ≤ 5) := by
  have hq : ∀ j, pseq
      ((natModel pobjSlow 10 (fun _ => [])).update_beta_jac_bcd
        (computeAlphas id 1 (Sum.inl 0)) true)
      ((natModel pobjSlow 10 (fun _ => [])).get_pobj
        (computeAlphas id 1 (Sum.inl 0))) 0 j = pobjSlow (j + 1) := by
    intro j
    rw [natModel_pseq]
    norm_num
  have hp0 : (natModel pobjSlow 10 (fun _ => [])).get_pobj0
      (computeAlphas id 1 (Sum.inl 0)) = 10 := rfl
  have hnone : ∀ n, 0 ≤ n → n < 0 + 100 → ¬(1 < n ∧ pseq
      ((natModel pobjSlow 10 (fun _ => [])).update_beta_jac_bcd
        (computeAlphas id 1 (Sum.inl 0)) true)
      ((natModel pobjSlow 10 (fun _ => [])).get_pobj
        (computeAlphas id 1 (Sum.inl 0))) 0 (n - 1) -
      pseq ((natModel pobjSlow 10 (fun _ => [])).update_beta_jac_bcd
        (computeAlphas id 1 (Sum.inl 0)) true)
      ((natModel pobjSlow 10 (fun _ => [])).get_pobj
        (computeAlphas id 1 (Sum.inl 0))) 0 n ≤
      npAbs ((natModel pobjSlow 10 (fun _ => [])).get_pobj0
        (computeAlphas id 1 (Sum.inl 0)) * (1/10))) := by
    intro n _ _ hc
    rcases hc with ⟨h1n, hle⟩
    rw [hq, hq, hp0] at hle
    have hsub : n - 1 + 1 = n := by omega
    rw [hsub] at hle
    unfold pobjSlow at hle
    rw [show npAbs (10 * (1/10)) = 1 by norm_num [npAbs]] at hle
    push_cast at hle
    linarith
  have hloop := loopGo_no_stop
    ((natModel pobjSlow 10 (fun _ => [])).update_beta_jac_bcd
      (computeAlphas id 1 (Sum.inl 0)) true)
    ((natModel pobjSlow 10 (fun _ => [])).get_pobj
      (computeAlphas id 1 (Sum.inl 0)))
    ((natModel pobjSlow 10 (fun _ => [])).get_pobj0
      (computeAlphas id 1 (Sum.inl 0)))
    (1/10) 0 100 0 hnone
  simp only [Function.iterate_zero_apply, List.range_zero, List.map_nil,
    Nat.zero_add] at hloop
  have hrun : iterdiff_run (natModel pobjSlow 10 (fun _ => [])) id 1
      (Sum.inl 0) 0 100 (1/10) true =
      (((natModel pobjSlow 10 (fun _ => [])).update_beta_jac_bcd
          (computeAlphas id 1 (Sum.inl 0)) true)^[100] 0,
        (List.range 100).map (pseq
          ((natModel pobjSlow 10 (fun _ => [])).update_beta_jac_bcd
            (computeAlphas id 1 (Sum.inl 0)) true)
          ((natModel pobjSlow 10 (fun _ => [])).get_pobj
            (computeAlphas id 1 (Sum.inl 0))) 0), 100, false) := hloop
  constructor
  · show (iterdiff_run (natModel pobjSlow 10 (fun _ => [])) id 1
      (Sum.inl 0) 0 100 (1/10) true).2.2.1 = 100
    rw [hrun]
  · show ¬((iterdiff_run (natModel pobjSlow 10 (fun _ => [])) id 1
      (Sum.inl 0) 0 100 (1/10) true).2.2.1 ≤ 5)
    rw [hrun]
    show ¬(100 ≤ 5)
    omega

theorem map_some_getD {α : Type} (l : List α) (k : Nat) :
    (l.map some).getD k none = l[k]? := by
  rw [List.getD_eq_getElem?_getD, List.getElem?_map]
  cases l[k]? <;> rfl

/-- C3: remapping an aligned Jacobian vector (and, row-wise, an aligned
Jacobian matrix) to a new mask of the same feature count copies exactly
the old entry at every feature active in both masks and puts exactly zero
(a zero row for the matrix) at every feature active only in the new mask;
the output position of feature `j` is the number of new-active features
before `j`, the source position the number of old-active features
before `j`. -/
theorem C3_remap_exact (db : List ℚ) (jac : List (List ℚ))
    (mask mask_old : List Bool) (j : Nat)
    (hlen : mask.length = mask_old.length)
    (hdb : db.length = countTrue mask_old)
    (hjac : jac.length = countTrue mask_old)
    (hj : j < mask.length) (hm : mask.getD j false = true) :
    (init_dbeta0_new db mask mask_old)[countTrue (mask.take j)]? =
      some (if mask_old.getD j false then
              db.getD (countTrue (mask_old.take j)) 0
            else 0) ∧
    (init_dbeta0_new_p jac mask mask_old)[countTrue (mask.take j)]? =
      some (if mask_old.getD j false then
              init_dbeta0_new (jac.getD (countTrue (mask_old.take j)) [])
                mask mask_old
            else List.replicate (countTrue mask) 0) := by
  constructor
  · exact remapActive_getD 0 mask mask_old db j hlen hj hm
  · rw [init_dbeta0_new_p, List.getElem?_map,
      remapActive_getD none mask mask_old (jac.map some) j hlen hj hm]
    cases hmo : mask_old.getD j false with
    | false => rfl
    | true =>
      have hco : countTrue (mask_old.take j) < jac.length := by
        rw [hjac]
        exact countTrue_take_lt mask_old j hmo
      rw [if_pos rfl, if_pos rfl, map_some_getD,
        List.getElem?_eq_getElem hco, List.getD_eq_getElem jac [] hco]
      rfl

/-- Witness for `C3_remap_exact`: a concrete remap with feature 0 active
in both masks. -/
theorem C3_remap_exact_witness :
    (([true, true, false] : List Bool).length =
        ([true, false, true] : List Bool).length ∧
      ([1, 2] : List ℚ).length = countTrue [true, false, true] ∧
      ([[1, 2], [3, 4]] : List (List ℚ)).length =
        countTrue [true, false, true] ∧
      0 < ([true, true, false] : List Bool).length ∧
      ([true, true, false] : List Bool).getD 0 false = true) ∧
    ((init_dbeta0_new [1, 2] [true, true, false]
        [true, false, true])[countTrue
          (([true, true, false] : List Bool).take 0)]? =
      some (if ([true, false, true] : List Bool).getD 0 false then
              ([1, 2] : List ℚ).getD
                (countTrue (([true, false, true] : List Bool).take 0)) 0
            else 0) ∧
    (init_dbeta0_new_p [[1, 2], [3, 4]] [true, true, false]
        [true, false, true])[countTrue
          (([true, true, false] : List Bool).take 0)]? =
      some (if ([true, false, true] : List Bool).getD 0 false then
              init_dbeta0_new (([[1, 2], [3, 4]] : List (List ℚ)).getD
                  (countTrue (([true, false, true] : List Bool).take 0)) [])
                [true, true, false] [true, false, true]
            else List.replicate (countTrue [true, true, false]) 0)) :=
  ⟨⟨by decide, by decide, by decide, by decide, by decide⟩,
    C3_remap_exact [1, 2] [[1, 2], [3, 4]] [true, true, false]
      [true, false, true] 0 (by decide) (by decide) (by decide) (by decide)
      (by decide)⟩

/-- C4: realigning a warm-start Jacobian vector to a new mask of the same
feature count is idempotent — realigning the realigned vector once more
with `mask_old := mask` changes nothing. -/
theorem C4_realign_idempotent (dbeta0 : List ℚ) (mask mask_old : List Bool)
    (hlen : mask.length = mask_old.length) :
    init_dbeta0_new (init_dbeta0_new dbeta0 mask mask_old) mask mask =
      init_dbeta0_new dbeta0 mask mask_old := by
  unfold init_dbeta0_new
  exact remapActive_self 0 mask _ (remapActive_length 0 mask mask_old dbeta0 hlen)

/-- Witness for `C4_realign_idempotent` on a concrete vector and masks. -/
theorem C4_realign_idempotent_witness :
    (([true, false, true] : List Bool).length =
        ([false, true, true] : List Bool).length) ∧
    init_dbeta0_new (init_dbeta0_new [3, 4] [true, false, true]
        [false, true, true]) [true, false, true] [true, false, true] =
      init_dbeta0_new [3, 4] [true, false, true] [false, true, true] :=
  ⟨by decide,
    C4_realign_idempotent [3, 4] [true, false, true] [false, true, true]
      (by decide)⟩

/-- C5: on the non-`return_all`, non-`save_iterates` path, the `(mask,
dense)` pair returned by `get_beta_jac_iterdiff` satisfies
`dense.length = mask.sum()`, the mask records at every position exactly
the non-nullity of the final `beta`, so positions outside the mask hold a
zero coefficient. -/
theorem C5_mask_dense_invariant {σ : Type} (M : ModelAdapter σ)
    (expf : ℚ → ℚ) (n_features : Nat) (log_alpha : ℚ ⊕ List ℚ) (s0 : σ)
    (max_iter : Nat) (tol : ℚ) (compute_jac : Bool) (j : Nat) (x : ℚ)
    (hx : (iterdiff_final_beta M expf n_features log_alpha s0 max_iter tol
      compute_jac)[j]? = some x) :
    (get_beta_jac_iterdiff M expf n_features log_alpha s0 max_iter tol
        compute_jac).2.1.length =
      countTrue (get_beta_jac_iterdiff M expf n_features log_alpha s0
        max_iter tol compute_jac).1 ∧
    (get_beta_jac_iterdiff M expf n_features log_alpha s0 max_iter tol
        compute_jac).1[j]? = some (decide (x ≠ 0)) ∧
    ((get_beta_jac_iterdiff M expf n_features log_alpha s0 max_iter tol
        compute_jac).1[j]? = some false → x = 0) ∧
    (x ≠ 0 ↔ (get_beta_jac_iterdiff M expf n_features log_alpha s0 max_iter
        tol compute_jac).1[j]? = some true) := by
  have hmask : (get_beta_jac_iterdiff M expf n_features log_alpha s0
      max_iter tol compute_jac).1 =
      (iterdiff_final_beta M expf n_features log_alpha s0 max_iter tol
        compute_jac).map (fun t => decide (t ≠ 0)) := rfl
  have hdense : (get_beta_jac_iterdiff M expf n_features log_alpha s0
      max_iter tol compute_jac).2.1 =
      (iterdiff_final_beta M expf n_features log_alpha s0 max_iter tol
        compute_jac).filter (fun t => decide (t ≠ 0)) := rfl
  have hat : (get_beta_jac_iterdiff M expf n_features log_alpha s0 max_iter
      tol compute_jac).1[j]? = some (decide (x ≠ 0)) := by
    rw [hmask, List.getElem?_map, hx]
    rfl
  refine ⟨?_, hat, ?_, ?_⟩
  · rw [hmask, hdense]
    exact filter_length_eq_countTrue _ _
  · intro hfalse
    rw [hat] at hfalse
    have hd : decide (x ≠ 0) = false := by
      injection hfalse
    simpa using of_decide_eq_false hd
  · constructor
    · intro hne
      rw [hat, decide_eq_true hne]
    · intro htrue
      rw [hat] at htrue
      have hd : decide (x ≠ 0) = true := by
        injection htrue
      exact of_decide_eq_true hd

/-- Witness for `C5_mask_dense_invariant` on a concrete run whose final
`beta` is `[0, 5]`. -/
theorem C5_mask_dense_invariant_witness :
    (iterdiff_final_beta (natModel pobjBoundary 10 (fun _ => [0, 5])) id 1
        (Sum.inl 0) 0 1 (1/10) true)[1]? = some 5 ∧
    ((get_beta_jac_iterdiff (natModel pobjBoundary 10 (fun _ => [0, 5])) id
        1 (Sum.inl 0) 0 1 (1/10) true).2.1.length =
      countTrue (get_beta_jac_iterdiff
        (natModel pobjBoundary 10 (fun _ => [0, 5])) id 1 (Sum.inl 0) 0 1
        (1/10) true).1 ∧
    (get_beta_jac_iterdiff (natModel pobjBoundary 10 (fun _ => [0, 5])) id
        1 (Sum.inl 0) 0 1 (1/10) true).1[1]? =
      some (decide ((5 : ℚ) ≠ 0)) ∧
    ((get_beta_jac_iterdiff (natModel pobjBoundary 10 (fun _ => [0, 5])) id
        1 (Sum.inl 0) 0 1 (1/10) true).1[1]? = some false → (5 : ℚ) = 0) ∧
    ((5 : ℚ) ≠ 0 ↔ (get_beta_jac_iterdiff
        (natModel pobjBoundary 10 (fun _ => [0, 5])) id 1 (Sum.inl 0) 0 1
        (1/10) true).1[1]? = some true)) :=
  ⟨by decide,
    C5_mask_dense_invariant (natModel pobjBoundary 10 (fun _ => [0, 5])) id
      1 (Sum.inl 0) 0 1 (1/10) true 1 5 (by decide)⟩

theorem map_ST_zero (xs : List ℚ) : xs.map (fun t => ST t 0) = xs := by
  induction xs with
  | nil => rfl
  | cons y ys ih =>
    rw [List.map_cons, ih]
    unfold ST
    rw [npMax_eq_max, npAbs_eq_abs, sub_zero, max_eq_left (abs_nonneg y),
      npSign_mul_abs]

theorem map_ST_below (alpha : ℚ) :
    ∀ (xs : List ℚ), (∀ t ∈ xs, |t| ≤ alpha) →
      xs.map (fun t => ST t alpha) = List.replicate xs.length 0 := by
  intro xs
  induction xs with
  | nil => intro _; rfl
  | cons y ys ih =>
    intro h
    rw [List.map_cons, List.length_cons, List.replicate_succ,
      ih (fun t ht => h t (List.mem_cons_of_mem y ht))]
    have hy : |y| ≤ alpha := h y (List.mem_cons_self y ys)
    unfold ST
    rw [npMax_eq_max, npAbs_eq_abs,
      max_eq_right (sub_nonpos.mpr hy), mul_zero]

/-- C6: the soft-threshold operator is a no-op at zero penalty and
annihilates every input of magnitude at most the penalty, pointwise and
elementwise on arrays. -/
theorem C6_soft_threshold (x alpha : ℚ) (xs : List ℚ) :
    ST x 0 = x ∧
    (|x| ≤ alpha → ST x alpha = 0) ∧
    xs.map (fun t => ST t 0) = xs ∧
    ((∀ t ∈ xs, |t| ≤ alpha) →
      xs.map (fun t => ST t alpha) = List.replicate xs.length 0) := by
  refine ⟨?_, ?_, map_ST_zero xs, map_ST_below alpha xs⟩
  · unfold ST
    rw [npMax_eq_max, npAbs_eq_abs, sub_zero, max_eq_left (abs_nonneg x),
      npSign_mul_abs]
  · intro hx
    unfold ST
    rw [npMax_eq_max, npAbs_eq_abs,
      max_eq_right (sub_nonpos.mpr hx), mul_zero]

/-- Witness for `C6_soft_threshold` at concrete scalars. -/
theorem C6_soft_threshold_witness :
    |(1 : ℚ)| ≤ 2 ∧ ST (1 : ℚ) 2 = 0 ∧ ST (3 : ℚ) 0 = 3 :=
  ⟨by norm_num, (C6_soft_threshold 1 2 []).2.1 (by norm_num),
    (C6_soft_threshold 3 0 []).1⟩

/-- C7, evaluation at the failing input: on two empty supports `iou`
reaches the unguarded quotient `0 / 0` (numpy evaluates it to NaN with a
RuntimeWarning — modeled `none`), instead of returning a guarded `0`; on
supports with nonempty union the computed ratio is propagated, with
`iou(s, s) = 1` for a nonempty `s` and `0` for disjoint nonempty
supports. -/
theorem C7_iou_unguarded :
    iou [false, false] [false, false] = none ∧
    iou [true, true] [true, true] = some 1 ∧
    iou [true, false] [false, true] = some 0 := by
  refine ⟨by decide, ?_, ?_⟩
  · show some ((2 : ℚ) / (2 : Nat)) = some 1
    norm_num
  · show some ((0 : ℚ) / (2 : Nat)) = some 0
    norm_num

/-- C8, evaluation at the failing input: with `n_features = 3` and a
length-2 hyperparameter vector, `get_beta_jac_iterdiff` keeps the
mismatched length-2 `alphas` (forward.py line 84, no validation) and the
sweep loop still executes — here its full 2-sweep budget — instead of
failing fast with an invalid-input signal before any sweep. -/
theorem C8_no_shape_validation :
    (computeAlphas id 3 (Sum.inr [0, 0])).length = 2 ∧
    (2 : Nat) ≠ 3 ∧
    (iterdiff_run (natModel pobjSlow 10 (fun _ => [])) id 3
        (Sum.inr [0, 0]) 0 2 (1/10) true).2.2 = (2, false) := by
  refine ⟨by decide, by decide, by decide⟩

/-- C9: each `Monitor.__call__` appends exactly one entry to every
recorded sequence, leaves every previously recorded entry in place,
stores the `None` sentinel for omitted optional fields, and the concrete
5-call scenario records exactly `[10, 8, 8, 7, 7]`. -/
theorem C9_monitor_append (m : Monitor) (t obj : ℚ) (ot : Option ℚ)
    (la : Option (ℚ ⊕ List ℚ)) (g : Option (List ℚ)) (rm : Option ℚ) :
    (Monitor.call (Monitor.call (Monitor.call (Monitor.call (Monitor.call
        (Monitor.init 0) 1 10 none none none none) 2 8 none none none none)
        3 8 none none none none) 4 7 none none none none) 5 7 none none
        none none).objs = [10, 8, 8, 7, 7] ∧
    (m.call t obj ot la g rm).objs = m.objs ++ [obj] ∧
    (m.call t obj ot la g rm).objs_test = m.objs_test ++ [ot] ∧
    (m.call t obj ot la g rm).times = m.times ++ [t - m.t0] ∧
    (m.call t obj ot la g rm).log_alphas = m.log_alphas ++ [la] ∧
    (m.call t obj ot la g rm).grads = m.grads ++ [g] ∧
    (m.call t obj ot la g rm).rmse = m.rmse ++ [rm] ∧
    (m.call t obj none none none none).objs_test = m.objs_test ++ [none] :=
  ⟨rfl, rfl, rfl, rfl, rfl, rfl, rfl, rfl⟩

/-- C10: running `get_beta_jac_iterdiff` with a scalar `log_alpha` is
extensionally the same call as running it with the constant length-
`n_features` vector of that scalar: the broadcast of forward.py line 86
makes both produce the same `alphas`, hence identical
`(mask, dense, jac)` outputs. -/
theorem C10_scalar_broadcast {σ : Type} (M : ModelAdapter σ)
    (expf : ℚ → ℚ) (n_features : Nat) (la : ℚ) (s0 : σ) (max_iter : Nat)
    (tol : ℚ) (compute_jac : Bool) :
    get_beta_jac_iterdiff M expf n_features (Sum.inl la) s0 max_iter tol
        compute_jac =
      get_beta_jac_iterdiff M expf n_features
        (Sum.inr (List.replicate n_features la)) s0 max_iter tol
        compute_jac := by
  have halpha : computeAlphas expf n_features (Sum.inl la) =
      computeAlphas expf n_features
        (Sum.inr (List.replicate n_features la)) := by
    simp [computeAlphas, List.map_replicate]
  unfold get_beta_jac_iterdiff iterdiff_run
  rw [halpha]

end SparseHo
